import Mathlib

/-!
Shallow embedding of the todo-webapp date-indexed collection engine
(`src/utils/todoUtils.js`), its error utilities (`src/utils/errorUtils.js`),
the date-key formatter from `src/utils/dateUtils.js`, and the stateful
facade built from `useLocalStorage`/`useTodos`.

JavaScript dynamic values that the code inspects with `typeof` /
`instanceof` are modelled by `JSVal`; a JS object field that may be
`undefined` is an `Option JSVal`.  A todos collection (a plain JS object
keyed by `YYYY-MM-DD` strings) is modelled as an association list in key
insertion order, matching `for...in` iteration order for such keys.
Thrown `Error`s become `Except JSError`.
-/

set_option autoImplicit false

/-- Calendar date as seen through the JS `Date` accessors used by
`formatDateKey`: `getFullYear()`, `getMonth()` (0-based) and `getDate()`. -/
structure JSDate where
  year : Nat
  month : Nat
  day : Nat
deriving DecidableEq, Repr

/-- Dynamic JavaScript value, covering the shapes the todo code inspects. -/
inductive JSVal where
  | str (s : String)
  | num (n : Int)
  | bool (b : Bool)
  | nullv
  | dateObj (d : JSDate)
deriving DecidableEq, Repr

/-- JS `Boolean(v)` truthiness coercion, as used on the `completed` patch. -/
def JSVal.toBoolJS : JSVal → Bool
  | .str s => !(s == "")
  | .num n => !(n == 0)
  | .bool b => b
  | .nullv => false
  | .dateObj _ => true

/-- Errors thrown by the todo utilities; constructors mirror the distinct
`throw new Error(...)` sites and the typed error classes of `errorUtils.js`. -/
inductive JSError where
  | notObject
  | missingFields (fields : List String)
  | idInvalid
  | titleInvalid
  | completedInvalid
  | dateKeyInvalid
  | descriptionInvalid
  | titleRequired
  | existingInvalid
  | existingNoId
  | datePatchInvalid
  | duplicateId (id dateKey : String)
  | notFound (id : String)
  | storageError (msg op : String)
  | wrapped (note : String) (inner : JSError)
deriving DecidableEq, Repr

/-- Decidable equality of thrown-or-returned results, used to evaluate the
engine on concrete inputs. -/
instance {ε α : Type} [DecidableEq ε] [DecidableEq α] : DecidableEq (Except ε α) := fun a b =>
  match a, b with
  | .error x, .error y =>
      if h : x = y then isTrue (by rw [h]) else isFalse (fun hc => h (Except.error.inj hc))
  | .ok x, .ok y =>
      if h : x = y then isTrue (by rw [h]) else isFalse (fun hc => h (Except.ok.inj hc))
  | .error _, .ok _ => isFalse (fun hc => Except.noConfusion hc)
  | .ok _, .error _ => isFalse (fun hc => Except.noConfusion hc)

/-- An item record with all six required fields present and typed, i.e. the
shape produced by `createTodo` and preserved by `updateTodo`. -/
structure Todo where
  id : String
  title : String
  description : String
  completed : Bool
  dateKey : String
  createdAt : String
  updatedAt : String
deriving DecidableEq, Repr, Inhabited

/-- A possibly malformed item object: each field may be absent (`none`,
i.e. JS `undefined`) or hold a value of any dynamic type. -/
structure RawTodo where
  id : Option JSVal
  title : Option JSVal
  description : Option JSVal
  completed : Option JSVal
  dateKey : Option JSVal
  createdAt : Option JSVal
  updatedAt : Option JSVal
deriving DecidableEq, Repr

/-- View a well-shaped `Todo` as the dynamic object it is in JS. -/
def Todo.toRaw (t : Todo) : RawTodo :=
  { id := some (.str t.id), title := some (.str t.title),
    description := some (.str t.description), completed := some (.bool t.completed),
    dateKey := some (.str t.dateKey), createdAt := some (.str t.createdAt),
    updatedAt := some (.str t.updatedAt) }

/-- `String(n).padStart(2, '0')` for a natural number. -/
def pad2 (n : Nat) : String :=
  if n < 10 then "0" ++ toString n else toString n

/-- `formatDateKey` from `dateUtils.js`: `YYYY-MM-DD` with zero padding,
month converted from 0-based `getMonth()` to 1-based. -/
def formatDateKey (d : JSDate) : String :=
  toString d.year ++ "-" ++ pad2 (d.month + 1) ++ "-" ++ pad2 d.day

/-- The regex test `^\d{4}-\d{2}-\d{2}$` from `validateTodo`. -/
def isDateKeyFormat (s : String) : Bool :=
  match s.toList with
  | [a, b, c, d, '-', e, f, '-', g, h] =>
      [a, b, c, d, e, f, g, h].all Char.isDigit
  | _ => false

/-- JS `String.prototype.trim`: strip leading and trailing whitespace,
written over the character list so that it evaluates by kernel reduction. -/
def jsTrim (s : String) : String :=
  ⟨((s.data.dropWhile Char.isWhitespace).reverse.dropWhile Char.isWhitespace).reverse⟩

/-- JS `String.prototype.toLowerCase` (ASCII case folding), written over the
character list so that it evaluates by kernel reduction. -/
def jsToLower (s : String) : String :=
  ⟨s.data.map Char.toLower⟩

/-- `typeof v === 'string'` for a possibly-absent field. -/
def isStrVal : Option JSVal → Bool
  | some (.str _) => true
  | _ => false

/-- The string payload of a field; only consulted after `isStrVal` holds,
mirroring JS short-circuit evaluation. -/
def strOf : Option JSVal → String
  | some (.str s) => s
  | _ => ""

/-- `typeof v === 'boolean'` for a possibly-absent field. -/
def isBoolVal : Option JSVal → Bool
  | some (.bool _) => true
  | _ => false

/-- Field presence (`field in todo`) for the six required field names. -/
def hasFieldRaw (r : RawTodo) : String → Bool
  | "id" => r.id.isSome
  | "title" => r.title.isSome
  | "completed" => r.completed.isSome
  | "dateKey" => r.dateKey.isSome
  | "createdAt" => r.createdAt.isSome
  | "updatedAt" => r.updatedAt.isSome
  | _ => false

/-- The `requiredFields` array of `validateTodo` (note: no `description`). -/
def requiredFields : List String :=
  ["id", "title", "completed", "dateKey", "createdAt", "updatedAt"]

/-- `requiredFields.filter(field => !(field in todo))`. -/
def missingRequired (r : RawTodo) : List String :=
  requiredFields.filter (fun f => !(hasFieldRaw r f))

/-- `validateTodo` from `todoUtils.js` on an object input: first aggregates
all missing required fields into one error, then checks field types one at
a time in source order, throwing at the first invalid one. -/
def validateTodo (r : RawTodo) : Except JSError Bool :=
  let missing := missingRequired r
  if !missing.isEmpty then .error (.missingFields missing)
  else if !(isStrVal r.id) || (strOf r.id).length == 0 then .error .idInvalid
  else if !(isStrVal r.title) || (jsTrim (strOf r.title)).length == 0 then .error .titleInvalid
  else if !(isBoolVal r.completed) then .error .completedInvalid
  else if !(isStrVal r.dateKey) || !(isDateKeyFormat (strOf r.dateKey)) then .error .dateKeyInvalid
  else if !(isStrVal r.description) then .error .descriptionInvalid
  else .ok true

/-- `createTodo`, with the generated id and the current timestamp passed in
explicitly (`generateTodoId()` and `new Date().toISOString()` in JS). -/
def createTodo (freshId now : String) (title description : String) (d : JSDate) :
    Except JSError Todo :=
  if title == "" || (jsTrim title).length == 0 then .error .titleRequired
  else
    .ok { id := freshId, title := jsTrim title, description := jsTrim description,
          completed := false, dateKey := formatDateKey d,
          createdAt := now, updatedAt := now }

/-- The `updates` object accepted by `updateTodo`: each field either absent
(`undefined`) or a dynamic value. -/
structure TodoPatch where
  title : Option JSVal := none
  description : Option JSVal := none
  completed : Option JSVal := none
  date : Option JSVal := none
deriving DecidableEq, Repr

/-- The `updates.title` block of `updateTodo`: a present title must be a
string that is non-empty after trimming, else an error is thrown. -/
def applyTitle (t : Todo) : Option JSVal → Except JSError Todo
  | none => .ok t
  | some (.str s) =>
      if (jsTrim s).length == 0 then .error .titleInvalid
      else .ok { t with title := jsTrim s }
  | some _ => .error .titleInvalid

/-- The `updates.description` block of `updateTodo`: a non-string value is
silently replaced by the empty string, never rejected. -/
def applyDescription (t : Todo) : Option JSVal → Todo
  | none => t
  | some (.str s) => { t with description := jsTrim s }
  | some _ => { t with description := "" }

/-- The `updates.completed` block of `updateTodo`: the value is coerced with
`Boolean(...)`, never rejected. -/
def applyCompleted (t : Todo) : Option JSVal → Todo
  | none => t
  | some v => { t with completed := v.toBoolJS }

/-- The `updates.date` block of `updateTodo`: a present value must be a
`Date` instance; `dateKey` is recomputed from it. -/
def applyDate (t : Todo) : Option JSVal → Except JSError Todo
  | none => .ok t
  | some (.dateObj d) => .ok { t with dateKey := formatDateKey d }
  | some _ => .error .datePatchInvalid

/-- `updateTodo` from `todoUtils.js`; `now` is `new Date().toISOString()`. -/
def updateTodo (now : String) (t : Todo) (p : TodoPatch) : Except JSError Todo :=
  if t.id == "" then .error .existingNoId
  else
    match applyTitle t p.title with
    | .error e => .error e
    | .ok t1 =>
        let t2 := applyDescription t1 p.description
        let t3 := applyCompleted t2 p.completed
        match applyDate t3 p.date with
        | .error e => .error e
        | .ok t4 => .ok { t4 with updatedAt := now }

/-- `toggleTodoComplete`: `updateTodo(todo, { completed: !todo.completed })`. -/
def toggleTodoComplete (now : String) (t : Todo) : Except JSError Todo :=
  updateTodo now t { completed := some (.bool (!t.completed)) }

/-- A todos collection: JS object from `YYYY-MM-DD` key to array of todos,
as an association list in key insertion order. -/
abbrev Collection := List (String × List Todo)

/-- Property-lookup `collection[key]`: the bucket under a key, if present. -/
def collGet : Collection → String → Option (List Todo)
  | [], _ => none
  | p :: rest, k => if p.1 == k then some p.2 else collGet rest k

/-- Property-assignment `collection[key] = v`: updates an existing key in
place, otherwise appends the key at the end (JS object key order). -/
def collSet : Collection → String → List Todo → Collection
  | [], k, v => [(k, v)]
  | p :: rest, k, v => if p.1 == k then (k, v) :: rest else p :: collSet rest k v

/-- `delete collection[key]`. -/
def collDelete (c : Collection) (k : String) : Collection :=
  c.filter (fun p => !(p.1 == k))

/-- `getTodosForDate` (string-key branch): `collection[dateKey] || []`. -/
def getTodosForDate (c : Collection) (k : String) : List Todo :=
  (collGet c k).getD []

/-- `getAllTodos`: flatten the buckets in key iteration order. -/
def getAllTodos (c : Collection) : List Todo :=
  c.flatMap (fun p => p.2)

/-- Number of items carrying a given id anywhere in the collection. -/
def idCount (c : Collection) (i : String) : Nat :=
  (getAllTodos c).countP (fun t => t.id == i)

/-- Whether any item anywhere in the collection carries the id. -/
def hasId (c : Collection) (i : String) : Bool :=
  (getAllTodos c).any (fun t => t.id == i)

/-- `addTodoToCollection`: validates the todo, then rejects the insert only
when the id already occurs in the target day's own bucket, and otherwise
appends the todo at the end of that bucket (creating it if needed). -/
def addTodoToCollection (c : Collection) (t : Todo) : Except JSError Collection :=
  match validateTodo t.toRaw with
  | .error e => .error e
  | .ok _ =>
      let bucket := (collGet c t.dateKey).getD []
      if bucket.any (fun x => x.id == t.id) then .error (.duplicateId t.id t.dateKey)
      else .ok (collSet c t.dateKey (bucket ++ [t]))

/-- `updateTodoInCollection`: scans buckets in key order for the first one
containing the id, applies `updateTodo`, removes every item with that id
from the old bucket (deleting the bucket if it becomes empty), and appends
the updated todo to its (possibly new) day's bucket. -/
def updateTodoInCollection (now : String) (c : Collection) (todoId : String)
    (p : TodoPatch) : Except JSError Collection :=
  match c.find? (fun kb => kb.2.any (fun t => t.id == todoId)) with
  | none => .error (.notFound todoId)
  | some (oldKey, bucket) =>
      match bucket.find? (fun t => t.id == todoId) with
      | none => .error (.notFound todoId)
      | some existing =>
          match updateTodo now existing p with
          | .error e => .error e
          | .ok updated =>
              let b2 := bucket.filter (fun t => !(t.id == todoId))
              let afterRemove :=
                if b2.isEmpty then collDelete c oldKey else collSet c oldKey b2
              let newBucket := (collGet afterRemove updated.dateKey).getD []
              .ok (collSet afterRemove updated.dateKey (newBucket ++ [updated]))

/-- `removeTodoFromCollection`: removes the id from the first bucket that
contains it, deleting the bucket if it becomes empty. -/
def removeTodoFromCollection (c : Collection) (todoId : String) :
    Except JSError Collection :=
  match c.find? (fun kb => kb.2.any (fun t => t.id == todoId)) with
  | none => .error (.notFound todoId)
  | some (oldKey, bucket) =>
      let b2 := bucket.filter (fun t => !(t.id == todoId))
      .ok (if b2.isEmpty then collDelete c oldKey else collSet c oldKey b2)

/-- `getTodoStats`; `completionRate` is modelled in exact rational
arithmetic in place of JS floating point. -/
structure TodoStats where
  total : Nat
  completed : Nat
  pending : Nat
  completionRate : ℚ

def getTodoStats (c : Collection) : TodoStats :=
  let allTodos := getAllTodos c
  let comp := allTodos.filter (fun t => t.completed)
  let pend := allTodos.filter (fun t => !t.completed)
  { total := allTodos.length, completed := comp.length, pending := pend.length,
    completionRate :=
      if allTodos.length > 0 then ((comp.length : ℚ) / (allTodos.length : ℚ)) * 100 else 0 }

/-- Prefix test on character lists: does the first list start the second? -/
def listPrefixOf : List Char → List Char → Bool
  | [], _ => true
  | _ :: _, [] => false
  | a :: as, b :: bs => a == b && listPrefixOf as bs

/-- Substring containment on character lists (JS `String.includes`). -/
def listContains (needle : List Char) : List Char → Bool
  | [] => listPrefixOf needle []
  | c :: rest => listPrefixOf needle (c :: rest) || listContains needle rest

/-- JS `hay.includes(needle)`. -/
def jsIncludes (hay needle : String) : Bool :=
  listContains needle.toList hay.toList

/-- `searchTodos`: defensive guard returning `[]` for falsy or non-string
terms, then case-insensitive trimmed substring match over title or
description, each hit tagged with its bucket's `dateKey`. -/
def searchTodos (c : Collection) (searchTerm : JSVal) : List Todo :=
  match searchTerm with
  | .str s =>
      if s == "" then []
      else
        let term := jsTrim (jsToLower s)
        c.flatMap (fun kb =>
          (kb.2.filter (fun td =>
            jsIncludes (jsToLower td.title) term || jsIncludes (jsToLower td.description) term)).map
              (fun td => { td with dateKey := kb.1 }))
  | _ => []

/-- Outcome of the `window.localStorage.setItem` call inside `setValue`:
either it returns, or it throws with some message (quota exceeded, storage
disabled, ...). -/
inductive PersistOutcome where
  | ok
  | fail (msg : String)
deriving DecidableEq, Repr

/-- The `status` state of `useLocalStorage`. -/
structure StorageStatus where
  loading : Bool
  error : Option JSError
  lastUpdated : Option String
deriving DecidableEq, Repr

/-- Visible state of the `useLocalStorage('todos', {})` hook: the React
state `storedValue` plus the operation `status`. -/
structure LSState where
  storedValue : Collection
  status : StorageStatus
deriving DecidableEq, Repr

/-- `setValue` of `useLocalStorage`: persists first; only on success is the
visible `storedValue` replaced.  On a throwing `setItem` the
`handleStorageOperation` wrapper raises a `StorageError`, which `setValue`
catches itself: it records the typed error in `status` and returns `false`
instead of rethrowing. -/
def setValue (outcome : PersistOutcome) (now : String) (st : LSState)
    (v : Collection) : LSState × Bool :=
  match outcome with
  | .ok =>
      ({ storedValue := v,
         status := { loading := false, error := none, lastUpdated := some now } },
       true)
  | .fail m =>
      ({ storedValue := st.storedValue,
         status := { loading := false,
                     error := some (.storageError m "setItem:todos"),
                     lastUpdated := none } },
       false)

/-- The `addTodo` operation of the `useTodos` facade: create, insert via the
pure engine, persist through `setValue` (return flag ignored), and return
the created todo.  Engine errors are rethrown wrapped. -/
def addTodoF (outcome : PersistOutcome) (freshId now : String) (st : LSState)
    (title description : String) (d : JSDate) : LSState × Except JSError Todo :=
  match createTodo freshId now title description d with
  | .error e => (st, .error (.wrapped "Failed to add todo" e))
  | .ok t =>
      match addTodoToCollection st.storedValue t with
      | .error e => (st, .error (.wrapped "Failed to add todo" e))
      | .ok c' => ((setValue outcome now st c').1, .ok t)

/-- The `deleteTodo` operation of the `useTodos` facade. -/
def deleteTodoF (outcome : PersistOutcome) (now : String) (st : LSState)
    (todoId : String) : LSState × Except JSError Bool :=
  match removeTodoFromCollection st.storedValue todoId with
  | .error e => (st, .error (.wrapped "Failed to delete todo" e))
  | .ok c' => ((setValue outcome now st c').1, .ok true)

/-- The sequential loop inside `bulkUpdateTodos`, acting on a local copy of
the collection; the first thrown error aborts the whole loop. -/
def bulkUpdateCore (now : String) (p : TodoPatch) :
    Collection → List String → Except JSError Collection
  | c, [] => .ok c
  | c, i :: rest =>
      match updateTodoInCollection now c i p with
      | .error e => .error e
      | .ok c' => bulkUpdateCore now p c' rest

/-- The `bulkUpdateTodos` operation of the `useTodos` facade: `setTodos` is
reached only when every sequential update succeeded, so a failure leaves
the visible state untouched.  (The returned array of updated todos is not
modelled; the result carries the new collection.) -/
def bulkUpdateTodosF (outcome : PersistOutcome) (now : String) (st : LSState)
    (ids : List String) (p : TodoPatch) : LSState × Except JSError Collection :=
  match bulkUpdateCore now p st.storedValue ids with
  | .error e => (st, .error (.wrapped "Failed to bulk update todos" e))
  | .ok c' => ((setValue outcome now st c').1, .ok c')

/-- One engine mutation, for stating invariants over operation sequences. -/
inductive TodoOp where
  | insert (t : Todo)
  | remove (i : String)
  | update (i : String) (p : TodoPatch)

/-- Apply one mutation the way the facade does: a thrown engine error means
the previous collection stays visible. -/
def applyOp (now : String) (c : Collection) : TodoOp → Collection
  | .insert t => match addTodoToCollection c t with
                 | .ok c' => c' | .error _ => c
  | .remove i => match removeTodoFromCollection c i with
                 | .ok c' => c' | .error _ => c
  | .update i p => match updateTodoInCollection now c i p with
                   | .ok c' => c' | .error _ => c

/-- Run a sequence of mutations left to right. -/
def runOps (now : String) : Collection → List TodoOp → Collection
  | c, [] => c
  | c, op :: rest => runOps now (applyOp now c op) rest

/-- No day key maps to an empty bucket. -/
def noEmptyBuckets (c : Collection) : Bool :=
  c.all (fun p => !p.2.isEmpty)

/-- Day keys of a collection, in insertion order. -/
def collKeys (c : Collection) : List String :=
  c.map Prod.fst

/-- JS objects cannot repeat a key; collections reachable from the app
always satisfy this. -/
def KeysNodup (c : Collection) : Prop :=
  (collKeys c).Nodup

instance (c : Collection) : Decidable (KeysNodup c) :=
  inferInstanceAs (Decidable (collKeys c).Nodup)

/-- Every stored item has a non-empty id (as guaranteed for items built by
`createTodo`/`updateTodo`). -/
def IdsNonempty (c : Collection) : Prop :=
  ∀ p ∈ c, ∀ t ∈ p.2, t.id ≠ ""

instance (c : Collection) : Decidable (IdsNonempty c) :=
  inferInstanceAs (Decidable (∀ p ∈ c, ∀ t ∈ p.2, t.id ≠ ""))

/-- A patch whose `title` and `date` components cannot make `updateTodo`
throw: any present title is a string non-empty after trimming, any present
date is a `Date` object. -/
def PatchClean (p : TodoPatch) : Prop :=
  (match p.title with
   | none => True
   | some (.str s) => jsTrim s ≠ ""
   | some _ => False) ∧
  (match p.date with
   | none => True
   | some (.dateObj _) => True
   | some _ => False)

theorem collGet_collSet_self (c : Collection) (k : String) (v : List Todo) :
    collGet (collSet c k v) k = some v := by
  induction c with
  | nil => simp [collSet, collGet]
  | cons p rest ih =>
      by_cases h : p.1 = k
      · simp [collSet, collGet, h]
      · simp [collSet, collGet, h, ih]

theorem collGet_collSet_ne (c : Collection) (k k' : String) (v : List Todo)
    (h : ¬ k' = k) : collGet (collSet c k v) k' = collGet c k' := by
  have hk : ¬ k = k' := fun he => h he.symm
  induction c with
  | nil => simp [collSet, collGet, hk]
  | cons p rest ih =>
      by_cases hp : p.1 = k
      · subst hp
        simp [collSet, collGet, hk]
      · by_cases hq : p.1 = k'
        · simp [collSet, collGet, hp, hq, h]
        · simp [collSet, collGet, hp, hq, ih]

theorem collGet_collDelete_self (c : Collection) (k : String) :
    collGet (collDelete c k) k = none := by
  induction c with
  | nil => simp [collDelete, collGet]
  | cons p rest ih =>
      by_cases h : p.1 = k
      · simpa [collDelete, h] using ih
      · simpa [collDelete, collGet, h] using ih

theorem collGet_collDelete_ne (c : Collection) (k k' : String)
    (h : ¬ k' = k) : collGet (collDelete c k) k' = collGet c k' := by
  induction c with
  | nil => simp [collDelete, collGet]
  | cons p rest ih =>
      have hk : ¬ k = k' := fun he => h he.symm
      by_cases hp : p.1 = k
      · simpa [collDelete, collGet, hp, hk] using ih
      · by_cases hq : p.1 = k'
        · simp [collDelete, collGet, hp, hq, hk, h]
        · simpa [collDelete, collGet, hp, hq] using ih

theorem mem_of_collGet {c : Collection} {k : String} {b : List Todo}
    (h : collGet c k = some b) : (k, b) ∈ c := by
  induction c with
  | nil => simp [collGet] at h
  | cons p rest ih =>
      by_cases hp : p.1 = k
      · simp [collGet, hp] at h
        have : (k, b) = p := by
          cases p
          simp_all
        rw [this]
        exact List.mem_cons_self _ _
      · simp [collGet, hp] at h
        exact List.mem_cons_of_mem _ (ih h)

theorem collGet_of_mem {c : Collection} {p : String × List Todo}
    (hk : KeysNodup c) (hm : p ∈ c) : collGet c p.1 = some p.2 := by
  induction c with
  | nil => simp at hm
  | cons q rest ih =>
      have hk2 : (q.1 :: collKeys rest).Nodup := hk
      obtain ⟨hq1, hq2⟩ := List.nodup_cons.mp hk2
      rcases List.mem_cons.mp hm with hpq | hpr
      · subst hpq
        simp [collGet]
      · have hmem : p.1 ∈ collKeys rest := List.mem_map_of_mem Prod.fst hpr
        have hne : ¬ q.1 = p.1 := fun he => hq1 (he ▸ hmem)
        simp [collGet, hne]
        exact ih hq2 hpr

theorem collKeys_cons (p : String × List Todo) (c : Collection) :
    collKeys (p :: c) = p.1 :: collKeys c := rfl

theorem collKeys_collSet (c : Collection) (k : String) (v : List Todo) :
    collKeys (collSet c k v) =
      if k ∈ collKeys c then collKeys c else collKeys c ++ [k] := by
  induction c with
  | nil => simp [collSet, collKeys]
  | cons p rest ih =>
      by_cases hp : p.1 = k
      · simp [collSet, collKeys_cons, hp]
      · have hne : ¬ k = p.1 := fun he => hp he.symm
        by_cases hm : k ∈ collKeys rest
        · simp [collSet, collKeys_cons, hp, hne, hm, ih]
        · simp [collSet, collKeys_cons, hp, hne, hm, ih]

theorem keysNodup_collSet {c : Collection} (k : String) (v : List Todo)
    (h : KeysNodup c) : KeysNodup (collSet c k v) := by
  unfold KeysNodup
  rw [collKeys_collSet]
  by_cases hm : k ∈ collKeys c
  · simpa [hm] using h
  · have hnd : (collKeys c ++ [k]).Nodup := by
      refine List.Nodup.append h (List.nodup_singleton k) ?_
      intro a ha hb
      rcases List.mem_singleton.mp hb with rfl
      exact hm ha
    simpa [hm] using hnd

theorem keysNodup_collDelete {c : Collection} (k : String)
    (h : KeysNodup c) : KeysNodup (collDelete c k) := by
  have hsub : List.Sublist (collKeys (collDelete c k)) (collKeys c) :=
    (List.filter_sublist c).map Prod.fst
  exact List.Nodup.sublist hsub h

theorem getAllTodos_cons (p : String × List Todo) (c : Collection) :
    getAllTodos (p :: c) = p.2 ++ getAllTodos c := by
  simp [getAllTodos]

theorem idCount_cons (p : String × List Todo) (c : Collection) (i : String) :
    idCount (p :: c) i = p.2.countP (fun t => t.id == i) + idCount c i := by
  simp [idCount, getAllTodos_cons, List.countP_append]

theorem idCount_eq_zero_of (c : Collection) (i : String)
    (h : ∀ p ∈ c, p.2.countP (fun t => t.id == i) = 0) : idCount c i = 0 := by
  induction c with
  | nil => rfl
  | cons p rest ih =>
      rw [idCount_cons, h p (List.mem_cons_self _ _),
        ih (fun q hq => h q (List.mem_cons_of_mem _ hq))]

theorem entries_zero_of_idCount (c : Collection) (i : String)
    (h : idCount c i = 0) : ∀ p ∈ c, p.2.countP (fun t => t.id == i) = 0 := by
  induction c with
  | nil =>
      intro p hp
      simp at hp
  | cons q rest ih =>
      rw [idCount_cons] at h
      intro p hp
      rcases List.mem_cons.mp hp with hq | hr
      · subst hq
        omega
      · exact ih (by omega) p hr

theorem countP_le_idCount (c : Collection) (i : String) (p : String × List Todo)
    (hp : p ∈ c) : p.2.countP (fun t => t.id == i) ≤ idCount c i := by
  induction c with
  | nil => simp at hp
  | cons q rest ih =>
      rw [idCount_cons]
      rcases List.mem_cons.mp hp with h | h
      · subst h
        exact Nat.le_add_right _ _
      · exact le_trans (ih h) (Nat.le_add_left _ _)

theorem countP_split_unique (c : Collection) (i : String)
    (hk : KeysNodup c) (h1 : idCount c i = 1)
    (e : String × List Todo) (he : e ∈ c)
    (hpos : 0 < e.2.countP (fun t => t.id == i)) :
    ∀ p ∈ c, ¬ p.1 = e.1 → p.2.countP (fun t => t.id == i) = 0 := by
  induction c with
  | nil =>
      intro p hp
      simp at hp
  | cons q rest ih =>
      have hk2 : (q.1 :: collKeys rest).Nodup := hk
      obtain ⟨hq1, hq2⟩ := List.nodup_cons.mp hk2
      rw [idCount_cons] at h1
      rcases List.mem_cons.mp he with hq | hr
      · subst hq
        have hrest : idCount rest i = 0 := by omega
        intro p hp hne
        rcases List.mem_cons.mp hp with h | h
        · subst h
          exact absurd rfl hne
        · exact entries_zero_of_idCount rest i hrest p h
      · have hle := countP_le_idCount rest i e hr
        have hqz : q.2.countP (fun t => t.id == i) = 0 := by omega
        intro p hp hne
        rcases List.mem_cons.mp hp with h | h
        · subst h
          exact hqz
        · exact ih hq2 (by omega) hr p h hne

theorem idCount_eq_one_of (c : Collection) (i K : String)
    (hk : KeysNodup c) (hmem : K ∈ collKeys c)
    (hK : ∀ p ∈ c, p.1 = K → p.2.countP (fun t => t.id == i) = 1)
    (hO : ∀ p ∈ c, ¬ p.1 = K → p.2.countP (fun t => t.id == i) = 0) :
    idCount c i = 1 := by
  induction c with
  | nil => simp [collKeys] at hmem
  | cons q rest ih =>
      have hk2 : (q.1 :: collKeys rest).Nodup := hk
      obtain ⟨hq1, hq2⟩ := List.nodup_cons.mp hk2
      rw [idCount_cons]
      by_cases hqK : q.1 = K
      · have hone : q.2.countP (fun t => t.id == i) = 1 :=
          hK q (List.mem_cons_self _ _) hqK
        have hzero : idCount rest i = 0 := by
          apply idCount_eq_zero_of
          intro p hp
          apply hO p (List.mem_cons_of_mem _ hp)
          intro hpK
          apply hq1
          have hmm : p.1 ∈ collKeys rest := List.mem_map_of_mem Prod.fst hp
          rwa [hpK, ← hqK] at hmm
        rw [hone, hzero]
      · have hzero : q.2.countP (fun t => t.id == i) = 0 :=
          hO q (List.mem_cons_self _ _) hqK
        have hmem' : K ∈ collKeys rest := by
          rcases List.mem_cons.mp hmem with h | h
          · exact absurd h.symm hqK
          · exact h
        rw [hzero, ih hq2 hmem'
          (fun p hp => hK p (List.mem_cons_of_mem _ hp))
          (fun p hp => hO p (List.mem_cons_of_mem _ hp))]

theorem String.length_eq_zero_iff {s : String} : s.length = 0 ↔ s = "" := by
  constructor
  · intro h
    cases s with
    | mk data =>
        cases data with
        | nil => rfl
        | cons a l => simp [String.length] at h
  · intro h
    subst h
    rfl

theorem applyDescription_id (t : Todo) (v : Option JSVal) :
    (applyDescription t v).id = t.id := by
  cases v with
  | none => rfl
  | some w => cases w <;> rfl

theorem applyCompleted_id (t : Todo) (v : Option JSVal) :
    (applyCompleted t v).id = t.id := by
  cases v <;> rfl

theorem applyTitle_ok_id {t u : Todo} {v : Option JSVal}
    (h : applyTitle t v = .ok u) : u.id = t.id := by
  unfold applyTitle at h
  split at h
  · injection h with h
    rw [← h]
  · split at h
    · simp at h
    · injection h with h
      rw [← h]
  · simp at h

theorem applyDate_ok_id {t u : Todo} {v : Option JSVal}
    (h : applyDate t v = .ok u) : u.id = t.id := by
  unfold applyDate at h
  split at h
  · injection h with h
    rw [← h]
  · injection h with h
    rw [← h]
  · simp at h

theorem updateTodo_id {now : String} {t u : Todo} {p : TodoPatch}
    (h : updateTodo now t p = .ok u) : u.id = t.id := by
  unfold updateTodo at h
  split at h
  · simp at h
  · cases ht : applyTitle t p.title with
    | error e =>
        rw [ht] at h
        simp at h
    | ok t1 =>
        rw [ht] at h
        dsimp only at h
        cases hd : applyDate (applyCompleted (applyDescription t1 p.description)
            p.completed) p.date with
        | error e =>
            rw [hd] at h
            simp at h
        | ok t4 =>
            rw [hd] at h
            injection h with h
            have h4 := applyDate_ok_id hd
            rw [applyCompleted_id, applyDescription_id] at h4
            rw [← h]
            show t4.id = t.id
            rw [h4, applyTitle_ok_id ht]

theorem updateTodo_ok_of_clean {now : String} {t : Todo} {p : TodoPatch}
    (hid : ¬ t.id = "") (hp : PatchClean p) :
    ∃ u, updateTodo now t p = .ok u ∧ u.id = t.id := by
  obtain ⟨h1, h2⟩ := hp
  have htitle : ∃ t1, applyTitle t p.title = .ok t1 := by
    cases hv : p.title with
    | none => exact ⟨t, rfl⟩
    | some w =>
        rw [hv] at h1
        cases w with
        | str s =>
            refine ⟨{ t with title := jsTrim s }, ?_⟩
            have hlen : ¬ (jsTrim s).length = 0 := fun hc =>
              h1 (String.length_eq_zero_iff.mp hc)
            simp [applyTitle, hlen]
        | num n => exact absurd h1 (by simp)
        | bool b => exact absurd h1 (by simp)
        | nullv => exact absurd h1 (by simp)
        | dateObj d => exact absurd h1 (by simp)
  obtain ⟨t1, ht1⟩ := htitle
  have hdate : ∃ u, applyDate (applyCompleted (applyDescription t1 p.description)
      p.completed) p.date = .ok u := by
    cases hv : p.date with
    | none => exact ⟨_, rfl⟩
    | some w =>
        rw [hv] at h2
        cases w with
        | str s => exact absurd h2 (by simp)
        | num n => exact absurd h2 (by simp)
        | bool b => exact absurd h2 (by simp)
        | nullv => exact absurd h2 (by simp)
        | dateObj d => exact ⟨_, rfl⟩
  obtain ⟨u, hu⟩ := hdate
  refine ⟨{ u with updatedAt := now }, ?_, ?_⟩
  · unfold updateTodo
    simp [hid, ht1, hu]
  · have h4 := applyDate_ok_id hu
    rw [applyCompleted_id, applyDescription_id] at h4
    show u.id = t.id
    rw [h4, applyTitle_ok_id ht1]

/-- A valid item under day 2024-01-05, used to evaluate the engine at
concrete inputs. -/
def exA : Todo :=
  { id := "a", title := "first", description := "", completed := false,
    dateKey := "2024-01-05", createdAt := "t0", updatedAt := "t0" }

/-- A different valid item that reuses the id "a" but targets 2024-01-06. -/
def exADup : Todo :=
  { id := "a", title := "second", description := "", completed := false,
    dateKey := "2024-01-06", createdAt := "t0", updatedAt := "t0" }

/-- A valid completed item with id "b" under day 2024-01-05. -/
def exB : Todo :=
  { id := "b", title := "other", description := "notes", completed := true,
    dateKey := "2024-01-05", createdAt := "t0", updatedAt := "t0" }

/-- A one-bucket collection holding `exA`. -/
def exColl : Collection := [("2024-01-05", [exA])]

theorem length_filter_add_length_filter_not (l : List Todo) :
    (l.filter (fun t => t.completed)).length +
      (l.filter (fun t => !t.completed)).length = l.length := by
  induction l with
  | nil => rfl
  | cons h tl ih =>
      cases hc : h.completed <;> simp [List.filter_cons, hc] <;> omega

/-- C8: `getTodoStats` returns a total equal to the number of items across
all buckets, with `completed + pending = total`, and a completion rate of
`completed / total * 100` that is defined as `0` for an empty collection
instead of dividing by zero. -/
theorem C8_stats_correct (c : Collection) :
    (getTodoStats c).total = (getAllTodos c).length ∧
    (getTodoStats c).completed + (getTodoStats c).pending = (getTodoStats c).total ∧
    (getTodoStats c).completionRate =
      (if (getTodoStats c).total = 0 then (0 : ℚ)
       else ((getTodoStats c).completed : ℚ) / ((getTodoStats c).total : ℚ) * 100) := by
  refine ⟨rfl, ?_, ?_⟩
  · exact length_filter_add_length_filter_not (getAllTodos c)
  · unfold getTodoStats
    by_cases h : (getAllTodos c).length = 0
    · simp [h]
    · simp [h, Nat.pos_of_ne_zero h]

theorem listContains_nil (l : List Char) : listContains [] l = true := by
  cases l <;> simp [listContains, listPrefixOf]

theorem jsIncludes_empty (hay : String) : jsIncludes hay "" = true :=
  listContains_nil hay.toList

/-- C10: a non-empty all-whitespace search term passes the falsy/non-string
guard, trims down to the empty string, and therefore matches every item:
`searchTodos` returns the whole collection flattened, each item tagged with
its bucket's day key. -/
theorem C10_whitespace_search (c : Collection) (s : String)
    (h1 : ¬ s = "") (h2 : jsTrim (jsToLower s) = "") :
    searchTodos c (.str s) =
      c.flatMap (fun kb => kb.2.map (fun t => { t with dateKey := kb.1 })) := by
  unfold searchTodos
  simp [h1, h2, jsIncludes_empty]

/-- C10 witness: the term `" "` really does return all items. -/
theorem C10_whitespace_search_witness :
    searchTodos [("2024-01-05", [exA]), ("2024-01-06", [exB])] (.str " ") =
      [exA, { exB with dateKey := "2024-01-06" }] := by
  have h := C10_whitespace_search [("2024-01-05", [exA]), ("2024-01-06", [exB])]
    " " (by decide) (by decide)
  exact h.trans (by decide)

/-- C1 counterexample: the id "a" already exists in the collection (under
2024-01-05), yet inserting a second item with id "a" dated 2024-01-06
succeeds and leaves the id present twice, because `addTodoToCollection`
checks only the target day's own bucket. -/
theorem C1_counterexample :
    hasId exColl "a" = true ∧
    addTodoToCollection exColl exADup =
      .ok [("2024-01-05", [exA]), ("2024-01-06", [exADup])] ∧
    idCount [("2024-01-05", [exA]), ("2024-01-06", [exADup])] "a" = 2 := by
  refine ⟨by decide, by decide, by decide⟩

/-- C1 (amended): for a todo that passes validation, insertion fails with
the duplicate-id error exactly when the id already occurs in the target
day's own bucket; an id present only under other day keys is not detected,
and the insert appends the item at the end of its day's bucket. -/
theorem C1_duplicate_check_is_per_day (c : Collection) (t : Todo)
    (hv : validateTodo t.toRaw = .ok true) :
    ((getTodosForDate c t.dateKey).any (fun x => x.id == t.id) = true →
        addTodoToCollection c t = .error (.duplicateId t.id t.dateKey)) ∧
    ((getTodosForDate c t.dateKey).any (fun x => x.id == t.id) = false →
        addTodoToCollection c t =
          .ok (collSet c t.dateKey (getTodosForDate c t.dateKey ++ [t]))) := by
  unfold addTodoToCollection
  rw [hv]
  unfold getTodosForDate
  constructor
  · intro h
    simp [h]
  · intro h
    simp [h]

/-- C1 amended-claim witness at concrete inputs: inserting id "b" into a
collection that holds only id "a" in the target bucket succeeds and
appends. -/
theorem C1_duplicate_check_is_per_day_witness :
    addTodoToCollection exColl exB = .ok [("2024-01-05", [exA, exB])] := by
  have h := (C1_duplicate_check_is_per_day exColl exB (by decide)).2 (by decide)
  exact h.trans (by decide)

/-- A raw object whose required fields are all present but whose `id` and
`completed` both have invalid types. -/
def rBadTypes : RawTodo :=
  { id := some (.num 5), title := some (.str "Valid title"),
    description := some (.str ""), completed := some (.str "yes"),
    dateKey := some (.str "2024-01-05"), createdAt := some (.str "t0"),
    updatedAt := some (.str "t0") }

/-- C6 counterexample: `rBadTypes` violates both the `id` invariant and the
`completed` invariant, but the single failure raised names only `id` — the
validator does not report every invalid field of the item. -/
theorem C6_counterexample :
    validateTodo rBadTypes = .error .idInvalid ∧
    isBoolVal rBadTypes.completed = false := by
  refine ⟨by decide, by decide⟩

theorem isStrVal_exists {v : Option JSVal} (h : isStrVal v = true) :
    ∃ s, v = some (.str s) := by
  cases v with
  | none => simp [isStrVal] at h
  | some w =>
      cases w with
      | str s => exact ⟨s, rfl⟩
      | num n => simp [isStrVal] at h
      | bool b => simp [isStrVal] at h
      | nullv => simp [isStrVal] at h
      | dateObj d => simp [isStrVal] at h

theorem isBoolVal_exists {v : Option JSVal} (h : isBoolVal v = true) :
    ∃ b, v = some (.bool b) := by
  cases v with
  | none => simp [isBoolVal] at h
  | some w =>
      cases w with
      | str s => simp [isBoolVal] at h
      | num n => simp [isBoolVal] at h
      | bool b => exact ⟨b, rfl⟩
      | nullv => simp [isBoolVal] at h
      | dateObj d => simp [isBoolVal] at h

/-- C6 (amended): `validateTodo` aggregates every *missing* required field
into one failure, but reports present-but-mistyped fields only one at a
time (the first failing check in source order); it returns `true` exactly
when all structural invariants hold. -/
theorem C6_validation_reporting (r : RawTodo) :
    (¬ missingRequired r = [] →
        validateTodo r = .error (.missingFields (missingRequired r))) ∧
    (validateTodo r = .ok true ↔
        (missingRequired r = [] ∧
         (∃ s, r.id = some (.str s) ∧ ¬ s = "") ∧
         (∃ s, r.title = some (.str s) ∧ ¬ jsTrim s = "") ∧
         (∃ b, r.completed = some (.bool b)) ∧
         (∃ s, r.dateKey = some (.str s) ∧ isDateKeyFormat s = true) ∧
         (∃ s, r.description = some (.str s)))) := by
  constructor
  · intro h
    have hne : (missingRequired r).isEmpty = false := by
      cases hmr : missingRequired r with
      | nil => exact absurd hmr h
      | cons a l => rfl
    simp [validateTodo, hne]
  · constructor
    · intro h
      have e1 : (missingRequired r).isEmpty = true := by
        cases he : (missingRequired r).isEmpty
        · simp [validateTodo, he] at h
        · rfl
      have e2 : (!(isStrVal r.id) || (strOf r.id).length == 0) = false := by
        cases he : (!(isStrVal r.id) || (strOf r.id).length == 0)
        · rfl
        · simp [validateTodo, e1, he] at h
      have e3 : (!(isStrVal r.title) || (jsTrim (strOf r.title)).length == 0) = false := by
        cases he : (!(isStrVal r.title) || (jsTrim (strOf r.title)).length == 0)
        · rfl
        · simp [validateTodo, e1, e2, he] at h
      have e4 : (!(isBoolVal r.completed)) = false := by
        cases he : (!(isBoolVal r.completed))
        · rfl
        · simp [validateTodo, e1, e2, e3, he] at h
      have e5 : (!(isStrVal r.dateKey) || !(isDateKeyFormat (strOf r.dateKey))) = false := by
        cases he : (!(isStrVal r.dateKey) || !(isDateKeyFormat (strOf r.dateKey)))
        · rfl
        · simp [validateTodo, e1, e2, e3, e4, he] at h
      have e6 : (!(isStrVal r.description)) = false := by
        cases he : (!(isStrVal r.description))
        · rfl
        · simp [validateTodo, e1, e2, e3, e4, e5, he] at h
      simp at e2 e3 e4 e5 e6
      obtain ⟨si, hsi⟩ := isStrVal_exists e2.1
      obtain ⟨st, hst⟩ := isStrVal_exists e3.1
      obtain ⟨b, hb⟩ := isBoolVal_exists e4
      obtain ⟨sk, hsk⟩ := isStrVal_exists e5.1
      obtain ⟨sd, hsd⟩ := isStrVal_exists e6
      refine ⟨by simpa using e1, ⟨si, hsi, ?_⟩, ⟨st, hst, ?_⟩, ⟨b, hb⟩,
        ⟨sk, hsk, ?_⟩, ⟨sd, hsd⟩⟩
      · intro hc
        apply e2.2
        simp [hsi, strOf, hc]
      · intro hc
        apply e3.2
        simp [hst, strOf, hc]
      · have := e5.2
        rw [hsk] at this
        simpa [strOf] using this
    · rintro ⟨hmr, ⟨si, hsi, hsi'⟩, ⟨st, hst, hst'⟩, ⟨b, hb⟩, ⟨sk, hsk, hsk'⟩, ⟨sd, hsd⟩⟩
      have hlen1 : ¬ si.length = 0 := fun hc => hsi' (String.length_eq_zero_iff.mp hc)
      have hlen2 : ¬ (jsTrim st).length = 0 := fun hc =>
        hst' (String.length_eq_zero_iff.mp hc)
      simp [validateTodo, hmr, hsi, hst, hb, hsk, hsd, isStrVal, isBoolVal, strOf,
        hlen1, hlen2, hsk']

/-- A raw object missing both `title` and `completed`. -/
def rMiss : RawTodo :=
  { id := some (.str "a"), title := none, description := some (.str ""),
    completed := none, dateKey := some (.str "2024-01-05"),
    createdAt := some (.str "t0"), updatedAt := some (.str "t0") }

/-- C6 amended-claim witness: both missing fields are reported together in
one failure. -/
theorem C6_validation_reporting_witness :
    validateTodo rMiss = .error (.missingFields ["title", "completed"]) := by
  have h := (C6_validation_reporting rMiss).1 (by decide)
  have he : missingRequired rMiss = ["title", "completed"] := by decide
  rw [he] at h
  exact h

/-- C7 counterexample: patching a valid item with a non-boolean `completed`
(the number 1) or a non-string `description` (the number 7) does not raise
any validation failure — the values are silently coerced to `true` and to
the empty string. -/
theorem C7_counterexample :
    updateTodo "t1" exA { completed := some (.num 1) } =
      .ok { exA with completed := true, updatedAt := "t1" } ∧
    updateTodo "t1" exA { description := some (.num 7) } =
      .ok { exA with description := "", updatedAt := "t1" } := by
  refine ⟨by decide, by decide⟩

/-- C7 (amended): for any existing item with a non-empty id, an update whose
patch supplies arbitrary dynamic values for `completed` and `description`
always succeeds: `completed` is coerced through JS `Boolean(...)`
truthiness and a non-string `description` becomes the empty string. -/
theorem C7_patch_coercion (now : String) (t : Todo) (v w : JSVal)
    (hid : ¬ t.id = "") :
    updateTodo now t { title := none, description := some w,
                       completed := some v, date := none } =
      .ok { t with
            description := match w with | .str s => jsTrim s | _ => "",
            completed := v.toBoolJS,
            updatedAt := now } := by
  unfold updateTodo
  simp [hid, applyTitle, applyDate]
  cases w <;> simp [applyDescription, applyCompleted]

/-- C7 amended-claim witness at concrete inputs. -/
theorem C7_patch_coercion_witness :
    updateTodo "t1" exB { title := none, description := some (.num 7),
                          completed := some (.num 1), date := none } =
      .ok { exB with description := "", completed := true, updatedAt := "t1" } := by
  have h := C7_patch_coercion "t1" exB (.num 1) (.num 7) (by decide)
  exact h.trans (by decide)

/-- C9: every successful update removes the item from its current position
and appends the updated item at the end of its day's bucket, even when the
patch leaves the day unchanged — so a completion toggle repositions the
item to the last slot rather than replacing it in place. -/
theorem C9_update_repositions_to_end (now : String) (c : Collection) (i : String)
    (p : TodoPatch) (oldKey : String) (bucket : List Todo) (ex u : Todo)
    (hfind : c.find? (fun kb => kb.2.any (fun t => t.id == i)) = some (oldKey, bucket))
    (hex : bucket.find? (fun t => t.id == i) = some ex)
    (hup : updateTodo now ex p = .ok u)
    (heq : u.dateKey = oldKey) :
    ∃ c', updateTodoInCollection now c i p = .ok c' ∧
      collGet c' oldKey = some ((bucket.filter (fun t => !(t.id == i))) ++ [u]) := by
  unfold updateTodoInCollection
  rw [hfind]
  dsimp only
  rw [hex]
  dsimp only
  rw [hup]
  dsimp only
  refine ⟨_, rfl, ?_⟩
  rw [heq]
  by_cases hemp : (bucket.filter (fun t => !(t.id == i))).isEmpty
  · have hnil : bucket.filter (fun t => !(t.id == i)) = [] := by
      simpa [List.isEmpty_iff] using hemp
    simp [hemp, collGet_collSet_self, collGet_collDelete_self, hnil]
  · simp [hemp, collGet_collSet_self]

/-- C9 witness: toggling completion of the first of two items moves it to
the end of its bucket. -/
theorem C9_update_repositions_to_end_witness :
    ∃ c', updateTodoInCollection "t1" [("2024-01-05", [exA, exB])] "a"
        { completed := some (.bool true) } = .ok c' ∧
      collGet c' "2024-01-05" =
        some [exB, { exA with completed := true, updatedAt := "t1" }] := by
  obtain ⟨c', h1, h2⟩ := C9_update_repositions_to_end "t1"
    [("2024-01-05", [exA, exB])] "a" { completed := some (.bool true) }
    "2024-01-05" [exA, exB] exA { exA with completed := true, updatedAt := "t1" }
    (by decide) (by decide) (by decide) (by decide)
  exact ⟨c', h1, h2.trans (by decide)⟩

theorem mem_collSet {c : Collection} {k : String} {v : List Todo}
    {p : String × List Todo} (h : p ∈ collSet c k v) : p = (k, v) ∨ p ∈ c := by
  induction c with
  | nil =>
      simp [collSet] at h
      exact Or.inl h
  | cons q rest ih =>
      by_cases hq : q.1 = k
      · have hcs : collSet (q :: rest) k v = (k, v) :: rest := by simp [collSet, hq]
        rw [hcs] at h
        rcases List.mem_cons.mp h with h | h
        · exact Or.inl h
        · exact Or.inr (List.mem_cons_of_mem _ h)
      · have hcs : collSet (q :: rest) k v = q :: collSet rest k v := by
          simp [collSet, hq]
        rw [hcs] at h
        rcases List.mem_cons.mp h with h | h
        · refine Or.inr ?_
          rw [h]
          exact List.mem_cons_self _ _
        · rcases ih h with h' | h'
          · exact Or.inl h'
          · exact Or.inr (List.mem_cons_of_mem _ h')

theorem mem_collDelete {c : Collection} {k : String}
    {p : String × List Todo} (h : p ∈ collDelete c k) : p ∈ c :=
  List.mem_of_mem_filter h

theorem noEmpty_collSet {c : Collection} {k : String} {v : List Todo}
    (hc : noEmptyBuckets c = true) (hv : v ≠ []) :
    noEmptyBuckets (collSet c k v) = true := by
  rw [noEmptyBuckets, List.all_eq_true] at hc ⊢
  intro p hp
  rcases mem_collSet hp with h | h
  · rw [h]
    simpa using hv
  · exact hc p h

theorem noEmpty_collDelete {c : Collection} (k : String)
    (hc : noEmptyBuckets c = true) : noEmptyBuckets (collDelete c k) = true := by
  rw [noEmptyBuckets, List.all_eq_true] at hc ⊢
  exact fun p hp => hc p (List.mem_of_mem_filter hp)

theorem noEmpty_add {c c' : Collection} {t : Todo}
    (h : addTodoToCollection c t = .ok c') (hc : noEmptyBuckets c = true) :
    noEmptyBuckets c' = true := by
  unfold addTodoToCollection at h
  cases hv : validateTodo t.toRaw with
  | error e =>
      rw [hv] at h
      simp at h
  | ok b =>
      rw [hv] at h
      dsimp only at h
      by_cases hdup : ((collGet c t.dateKey).getD []).any (fun x => x.id == t.id)
      · simp [hdup] at h
      · simp only [hdup, if_false, Bool.false_eq_true] at h
        injection h with h
        rw [← h]
        exact noEmpty_collSet hc (by simp)

theorem noEmpty_remove {c c' : Collection} {i : String}
    (h : removeTodoFromCollection c i = .ok c') (hc : noEmptyBuckets c = true) :
    noEmptyBuckets c' = true := by
  unfold removeTodoFromCollection at h
  cases hf : c.find? (fun kb => kb.2.any (fun t => t.id == i)) with
  | none =>
      rw [hf] at h
      simp at h
  | some kb =>
      obtain ⟨oldKey, bucket⟩ := kb
      rw [hf] at h
      dsimp only at h
      injection h with h
      rw [← h]
      by_cases hemp : (bucket.filter (fun t => !(t.id == i))).isEmpty
      · simp only [hemp, if_true]
        exact noEmpty_collDelete _ hc
      · simp only [hemp, if_false, Bool.false_eq_true]
        refine noEmpty_collSet hc ?_
        intro hnil
        rw [hnil] at hemp
        exact hemp rfl

theorem noEmpty_update {now : String} {c c' : Collection} {i : String} {p : TodoPatch}
    (h : updateTodoInCollection now c i p = .ok c') (hc : noEmptyBuckets c = true) :
    noEmptyBuckets c' = true := by
  unfold updateTodoInCollection at h
  cases hf : c.find? (fun kb => kb.2.any (fun t => t.id == i)) with
  | none =>
      rw [hf] at h
      simp at h
  | some kb =>
      obtain ⟨oldKey, bucket⟩ := kb
      rw [hf] at h
      dsimp only at h
      cases he : bucket.find? (fun t => t.id == i) with
      | none =>
          rw [he] at h
          simp at h
      | some ex =>
          rw [he] at h
          dsimp only at h
          cases hu : updateTodo now ex p with
          | error e =>
              rw [hu] at h
              simp at h
          | ok u =>
              rw [hu] at h
              dsimp only at h
              injection h with h
              rw [← h]
              have hAR : noEmptyBuckets
                  (if (bucket.filter (fun t => !(t.id == i))).isEmpty
                   then collDelete c oldKey
                   else collSet c oldKey (bucket.filter (fun t => !(t.id == i)))) = true := by
                by_cases hemp : (bucket.filter (fun t => !(t.id == i))).isEmpty
                · simp only [hemp, if_true]
                  exact noEmpty_collDelete _ hc
                · simp only [hemp, if_false, Bool.false_eq_true]
                  refine noEmpty_collSet hc ?_
                  intro hnil
                  rw [hnil] at hemp
                  exact hemp rfl
              exact noEmpty_collSet hAR (by simp)

theorem noEmpty_applyOp (now : String) (c : Collection) (op : TodoOp)
    (h : noEmptyBuckets c = true) : noEmptyBuckets (applyOp now c op) = true := by
  cases op with
  | insert t =>
      cases ha : addTodoToCollection c t with
      | ok c' => simpa [applyOp, ha] using noEmpty_add ha h
      | error e => simpa [applyOp, ha] using h
  | remove i =>
      cases ha : removeTodoFromCollection c i with
      | ok c' => simpa [applyOp, ha] using noEmpty_remove ha h
      | error e => simpa [applyOp, ha] using h
  | update i p =>
      cases ha : updateTodoInCollection now c i p with
      | ok c' => simpa [applyOp, ha] using noEmpty_update ha h
      | error e => simpa [applyOp, ha] using h

/-- C5: starting from a collection with no empty bucket, any sequence of
insert, remove, and update operations leaves no empty bucket — removing or
moving the last item under a key deletes the key entirely — and asking for
the items of a day with no bucket returns the empty sequence rather than
failing. -/
theorem C5_no_empty_buckets (now : String) (c : Collection) (ops : List TodoOp)
    (h : noEmptyBuckets c = true) :
    noEmptyBuckets (runOps now c ops) = true ∧
    (∀ k, collGet (runOps now c ops) k = none →
        getTodosForDate (runOps now c ops) k = []) := by
  constructor
  · induction ops generalizing c with
    | nil => simpa [runOps] using h
    | cons op rest ih =>
        simpa [runOps] using ih (applyOp now c op) (noEmpty_applyOp now c op h)
  · intro k hk
    simp [getTodosForDate, hk]

/-- C5 witness: inserting two items, moving one away, and removing the
other leaves the emptied day key deleted and queries on it return `[]`. -/
theorem C5_no_empty_buckets_witness :
    noEmptyBuckets (runOps "t1" []
      [TodoOp.insert exA, TodoOp.insert exB,
       TodoOp.update "a" { date := some (.dateObj ⟨2024, 0, 7⟩) },
       TodoOp.remove "b"]) = true ∧
    getTodosForDate (runOps "t1" []
      [TodoOp.insert exA, TodoOp.insert exB,
       TodoOp.update "a" { date := some (.dateObj ⟨2024, 0, 7⟩) },
       TodoOp.remove "b"]) "2024-01-05" = [] := by
  have h := C5_no_empty_buckets "t1" []
    [TodoOp.insert exA, TodoOp.insert exB,
     TodoOp.update "a" { date := some (.dateObj ⟨2024, 0, 7⟩) },
     TodoOp.remove "b"] (by decide)
  exact ⟨h.1, h.2 "2024-01-05" (by decide)⟩

/-- Initial facade state: empty stored collection, clean status. -/
def st0 : LSState :=
  { storedValue := [],
    status := { loading := false, error := none, lastUpdated := none } }

/-- C3 counterexample: with a failing persistence write, `addTodo` still
hands the created todo back as a success — no typed storage failure is
raised to the caller — while the typed `StorageError` is only recorded in
the hook's status object and the visible collection stays unchanged. -/
theorem C3_counterexample :
    (addTodoF (.fail "QuotaExceeded") "todo_1" "t0" st0 "Pay rent" "" ⟨2024, 0, 5⟩).2 =
      .ok { id := "todo_1", title := "Pay rent", description := "", completed := false,
            dateKey := "2024-01-05", createdAt := "t0", updatedAt := "t0" } ∧
    (addTodoF (.fail "QuotaExceeded") "todo_1" "t0" st0
        "Pay rent" "" ⟨2024, 0, 5⟩).1.storedValue = st0.storedValue ∧
    (addTodoF (.fail "QuotaExceeded") "todo_1" "t0" st0
        "Pay rent" "" ⟨2024, 0, 5⟩).1.status.error =
      some (.storageError "QuotaExceeded" "setItem:todos") := by
  refine ⟨by decide, by decide, by decide⟩

/-- C3 (amended): the visible collection is replaced only when the
persistence write succeeds; on a failing write the prior visible state is
kept and the typed `StorageError` is recorded in the hook's status with
`setValue` returning false — but the mutating facade call completes
normally (returning its usual success value) instead of raising the
storage failure to its caller. -/
theorem C3_failed_write_keeps_state (m freshId now title desc : String)
    (d : JSDate) (st : LSState) (i : String) (cNew cDel : Collection) (t : Todo)
    (hc : createTodo freshId now title desc d = .ok t)
    (ha : addTodoToCollection st.storedValue t = .ok cNew)
    (hr : removeTodoFromCollection st.storedValue i = .ok cDel) :
    setValue (.fail m) now st cNew =
      ({ storedValue := st.storedValue,
         status := { loading := false,
                     error := some (.storageError m "setItem:todos"),
                     lastUpdated := none } }, false) ∧
    addTodoF (.fail m) freshId now st title desc d =
      ({ storedValue := st.storedValue,
         status := { loading := false,
                     error := some (.storageError m "setItem:todos"),
                     lastUpdated := none } }, .ok t) ∧
    (addTodoF .ok freshId now st title desc d).1.storedValue = cNew ∧
    deleteTodoF (.fail m) now st i =
      ({ storedValue := st.storedValue,
         status := { loading := false,
                     error := some (.storageError m "setItem:todos"),
                     lastUpdated := none } }, .ok true) ∧
    (deleteTodoF .ok now st i).1.storedValue = cDel := by
  refine ⟨rfl, ?_, ?_, ?_, ?_⟩
  · simp [addTodoF, hc, ha, setValue]
  · simp [addTodoF, hc, ha, setValue]
  · simp [deleteTodoF, hr, setValue]
  · simp [deleteTodoF, hr, setValue]

/-- C3 amended-claim witness: a concrete failing write leaves the one-item
collection visible and reports success to the caller. -/
theorem C3_failed_write_keeps_state_witness :
    addTodoF (.fail "Quota") "todo_2" "t1"
      { storedValue := exColl,
        status := { loading := false, error := none, lastUpdated := none } }
      "Walk dog" "" ⟨2024, 0, 6⟩ =
      ({ storedValue := exColl,
         status := { loading := false,
                     error := some (.storageError "Quota" "setItem:todos"),
                     lastUpdated := none } },
       .ok { id := "todo_2", title := "Walk dog", description := "",
             completed := false, dateKey := "2024-01-06",
             createdAt := "t1", updatedAt := "t1" }) := by
  have h := (C3_failed_write_keeps_state "Quota" "todo_2" "t1" "Walk dog" ""
    ⟨2024, 0, 6⟩
    { storedValue := exColl,
      status := { loading := false, error := none, lastUpdated := none } }
    "a"
    [("2024-01-05", [exA]),
     ("2024-01-06", [{ id := "todo_2", title := "Walk dog", description := "",
                       completed := false, dateKey := "2024-01-06",
                       createdAt := "t1", updatedAt := "t1" }])]
    []
    { id := "todo_2", title := "Walk dog", description := "", completed := false,
      dateKey := "2024-01-06", createdAt := "t1", updatedAt := "t1" }
    (by decide) (by decide) (by decide)).2.1
  exact h

/-- C2: for a well-formed collection (unique keys, the updated id present
exactly once), a successful update whose patch moves the item to a new day
relocates it: the updated item is appended to the new day's bucket, the
old bucket no longer contains the id (and is deleted when it became
empty), no other bucket contains the id, and exactly one copy of the id
exists in the whole collection afterwards. -/
theorem C2_move_semantics (now : String) (c : Collection) (i : String)
    (p : TodoPatch) (oldKey : String) (bucket : List Todo) (ex u : Todo)
    (c' : Collection)
    (hk : KeysNodup c)
    (h1 : idCount c i = 1)
    (hfind : c.find? (fun kb => kb.2.any (fun t => t.id == i)) = some (oldKey, bucket))
    (hex : bucket.find? (fun t => t.id == i) = some ex)
    (hup : updateTodo now ex p = .ok u)
    (hne : ¬ u.dateKey = oldKey)
    (hres : updateTodoInCollection now c i p = .ok c') :
    u.id = i ∧
    collGet c' u.dateKey = some (((collGet c u.dateKey).getD []) ++ [u]) ∧
    collGet c' oldKey =
      (if (bucket.filter (fun t => !(t.id == i))).isEmpty then none
       else some (bucket.filter (fun t => !(t.id == i)))) ∧
    (∀ k, ¬ k = u.dateKey → ∀ t ∈ (collGet c' k).getD [], ¬ t.id = i) ∧
    idCount c' i = 1 := by
  unfold updateTodoInCollection at hres
  rw [hfind] at hres
  dsimp only at hres
  rw [hex] at hres
  dsimp only at hres
  rw [hup] at hres
  dsimp only at hres
  injection hres with hres
  have hexid : ex.id = i := by simpa using List.find?_some hex
  have huid : u.id = i := by rw [updateTodo_id hup, hexid]
  have he_mem : (oldKey, bucket) ∈ c := List.mem_of_find?_eq_some hfind
  have hex_mem : ex ∈ bucket := List.mem_of_find?_eq_some hex
  have hpos : 0 < bucket.countP (fun t => t.id == i) :=
    List.countP_pos_iff.mpr ⟨ex, hex_mem, by simpa using hexid⟩
  have hothers := countP_split_unique c i hk h1 (oldKey, bucket) he_mem hpos
  set b2 := bucket.filter (fun t => !(t.id == i)) with hb2
  set AR := (if b2.isEmpty then collDelete c oldKey else collSet c oldKey b2)
    with hAR
  have hARnew : collGet AR u.dateKey = collGet c u.dateKey := by
    rw [hAR]
    by_cases hemp : b2.isEmpty
    · simp only [hemp, if_true]
      exact collGet_collDelete_ne c oldKey u.dateKey hne
    · simp only [hemp, if_false, Bool.false_eq_true]
      exact collGet_collSet_ne c oldKey u.dateKey b2 hne
  have hARold : collGet AR oldKey = (if b2.isEmpty then none else some b2) := by
    rw [hAR]
    by_cases hemp : b2.isEmpty
    · simp only [hemp, if_true]
      exact collGet_collDelete_self c oldKey
    · simp only [hemp, if_false, Bool.false_eq_true]
      exact collGet_collSet_self c oldKey b2
  have hARother : ∀ k, ¬ k = oldKey → collGet AR k = collGet c k := by
    intro k hkne
    rw [hAR]
    by_cases hemp : b2.isEmpty
    · simp only [hemp, if_true]
      exact collGet_collDelete_ne c oldKey k hkne
    · simp only [hemp, if_false, Bool.false_eq_true]
      exact collGet_collSet_ne c oldKey k b2 hkne
  have hc'new : collGet c' u.dateKey = some (((collGet c u.dateKey).getD []) ++ [u]) := by
    rw [← hres]
    rw [collGet_collSet_self, hARnew]
  have hc'old : collGet c' oldKey = (if b2.isEmpty then none else some b2) := by
    rw [← hres]
    rw [collGet_collSet_ne AR u.dateKey oldKey _ (fun he => hne he.symm), hARold]
  have hc'other : ∀ k, ¬ k = u.dateKey → ¬ k = oldKey →
      collGet c' k = collGet c k := by
    intro k hk1 hk2
    rw [← hres, collGet_collSet_ne AR u.dateKey k _ hk1]
    exact hARother k hk2
  have hnoid : ∀ k, ¬ k = u.dateKey → ∀ t ∈ (collGet c' k).getD [], ¬ t.id = i := by
    intro k hk1 t ht
    by_cases hk2 : k = oldKey
    · subst hk2
      rw [hc'old] at ht
      by_cases hemp : b2.isEmpty
      · rw [if_pos hemp] at ht
        simp at ht
      · rw [if_neg hemp] at ht
        simp only [Option.getD_some] at ht
        have := List.of_mem_filter (by rw [← hb2]; exact ht)
        intro hc
        rw [hc] at this
        simp at this
    · rw [hc'other k hk1 hk2] at ht
      cases hg : collGet c k with
      | none =>
          rw [hg] at ht
          simp at ht
      | some b =>
          rw [hg] at ht
          simp only [Option.getD_some] at ht
          have hbmem : (k, b) ∈ c := mem_of_collGet hg
          have hz : b.countP (fun t => t.id == i) = 0 := hothers (k, b) hbmem hk2
          have := List.countP_eq_zero.mp hz t ht
          intro hc
          rw [hc] at this
          simp at this
  have hγzero : ((collGet c u.dateKey).getD []).countP (fun t => t.id == i) = 0 := by
    cases hg : collGet c u.dateKey with
    | none => simp
    | some b =>
        have hbmem : (u.dateKey, b) ∈ c := mem_of_collGet hg
        simpa using hothers (u.dateKey, b) hbmem hne
  have hk' : KeysNodup c' := by
    rw [← hres]
    apply keysNodup_collSet
    rw [hAR]
    by_cases hemp : b2.isEmpty
    · simp only [hemp, if_true]
      exact keysNodup_collDelete _ hk
    · simp only [hemp, if_false, Bool.false_eq_true]
      exact keysNodup_collSet _ _ hk
  have hmem' : u.dateKey ∈ collKeys c' := by
    have := mem_of_collGet hc'new
    exact List.mem_map_of_mem Prod.fst this
  have hcount : idCount c' i = 1 := by
    apply idCount_eq_one_of c' i u.dateKey hk' hmem'
    · intro q hq hqK
      have hget : collGet c' q.1 = some q.2 := collGet_of_mem hk' hq
      rw [hqK, hc'new] at hget
      injection hget with hget
      rw [← hget]
      rw [List.countP_append]
      rw [hγzero]
      simp [huid]
    · intro q hq hqK
      have hget : collGet c' q.1 = some q.2 := collGet_of_mem hk' hq
      apply List.countP_eq_zero.mpr
      intro t ht
      have := hnoid q.1 hqK t (by rw [hget]; simpa using ht)
      simpa using this
  exact ⟨huid, hc'new, hc'old, hnoid, hcount⟩

/-- C2 witness: moving the first of two items to 2024-01-06 leaves exactly
one copy, under the new key only, with the old bucket retaining the other
item. -/
theorem C2_move_semantics_witness :
    ({ exA with dateKey := "2024-01-06", updatedAt := "t1" } : Todo).id = "a" ∧
    collGet [("2024-01-05", [exB]),
             ("2024-01-06", [{ exA with dateKey := "2024-01-06", updatedAt := "t1" }])]
        "2024-01-06" =
      some [{ exA with dateKey := "2024-01-06", updatedAt := "t1" }] ∧
    collGet [("2024-01-05", [exB]),
             ("2024-01-06", [{ exA with dateKey := "2024-01-06", updatedAt := "t1" }])]
        "2024-01-05" = some [exB] ∧
    idCount [("2024-01-05", [exB]),
             ("2024-01-06", [{ exA with dateKey := "2024-01-06", updatedAt := "t1" }])]
        "a" = 1 := by
  have h := C2_move_semantics "t1" [("2024-01-05", [exA, exB])] "a"
    { date := some (.dateObj ⟨2024, 0, 6⟩) } "2024-01-05" [exA, exB] exA
    { exA with dateKey := "2024-01-06", updatedAt := "t1" }
    [("2024-01-05", [exB]),
     ("2024-01-06", [{ exA with dateKey := "2024-01-06", updatedAt := "t1" }])]
    (by decide) (by decide) (by decide) (by decide) (by decide) (by decide) (by decide)
  exact ⟨h.1, h.2.1.trans (by decide), h.2.2.1.trans (by decide), h.2.2.2.2⟩

theorem hasId_iff (c : Collection) (j : String) :
    hasId c j = true ↔ ∃ kb ∈ c, ∃ t ∈ kb.2, t.id = j := by
  rw [hasId, List.any_eq_true]
  constructor
  · rintro ⟨t, ht, hid⟩
    rw [getAllTodos, List.mem_flatMap] at ht
    obtain ⟨kb, hkb, htb⟩ := ht
    exact ⟨kb, hkb, t, htb, by simpa using hid⟩
  · rintro ⟨kb, hkb, t, htb, hid⟩
    refine ⟨t, ?_, by simpa using hid⟩
    rw [getAllTodos, List.mem_flatMap]
    exact ⟨kb, hkb, htb⟩

theorem updColl_notFound (now : String) {c : Collection} {i : String} (p : TodoPatch)
    (h : hasId c i = false) :
    updateTodoInCollection now c i p = .error (.notFound i) := by
  have hf : c.find? (fun kb => kb.2.any (fun t => t.id == i)) = none := by
    rw [List.find?_eq_none]
    intro kb hkb hany
    obtain ⟨t, htb, hid⟩ := List.any_eq_true.mp hany
    have : hasId c i = true :=
      (hasId_iff c i).mpr ⟨kb, hkb, t, htb, by simpa using hid⟩
    rw [h] at this
    exact Bool.noConfusion this
  unfold updateTodoInCollection
  rw [hf]

theorem updColl_step (now : String) {c : Collection} {i : String} {p : TodoPatch}
    (hk : KeysNodup c) (hn : IdsNonempty c) (hclean : PatchClean p)
    (h : hasId c i = true) :
    ∃ c', updateTodoInCollection now c i p = .ok c' ∧
      KeysNodup c' ∧ IdsNonempty c' ∧ ∀ j, hasId c' j = hasId c j := by
  obtain ⟨kb0, hf⟩ : ∃ kb, c.find? (fun kb => kb.2.any (fun t => t.id == i)) = some kb := by
    obtain ⟨kb, hkb, t, htb, hid⟩ := (hasId_iff c i).mp h
    have hsome : (c.find? (fun kb => kb.2.any (fun t => t.id == i))).isSome :=
      List.find?_isSome.mpr ⟨kb, hkb, List.any_eq_true.mpr ⟨t, htb, by simpa using hid⟩⟩
    exact Option.isSome_iff_exists.mp hsome
  obtain ⟨oldKey, bucket⟩ := kb0
  have hbmem : (oldKey, bucket) ∈ c := List.mem_of_find?_eq_some hf
  have hany : bucket.any (fun t => t.id == i) = true := by
    simpa using List.find?_some hf
  obtain ⟨ex, hex⟩ : ∃ ex, bucket.find? (fun t => t.id == i) = some ex := by
    obtain ⟨t, htb, hid⟩ := List.any_eq_true.mp hany
    exact Option.isSome_iff_exists.mp (List.find?_isSome.mpr ⟨t, htb, hid⟩)
  have hexmem : ex ∈ bucket := List.mem_of_find?_eq_some hex
  have hexid : ex.id = i := by simpa using List.find?_some hex
  have hine : ¬ ex.id = "" := hn (oldKey, bucket) hbmem ex hexmem
  obtain ⟨u, hu, huid⟩ := updateTodo_ok_of_clean hine hclean
  have huid' : u.id = i := by rw [huid, hexid]
  set b2 := bucket.filter (fun t => !(t.id == i)) with hb2
  set AR := (if b2.isEmpty then collDelete c oldKey else collSet c oldKey b2) with hAR
  set γ := (collGet AR u.dateKey).getD [] with hγ
  have hnAR : IdsNonempty AR := by
    rw [hAR]
    by_cases hemp : b2.isEmpty
    · simp only [hemp, if_true]
      intro q hq t ht
      exact hn q (mem_collDelete hq) t ht
    · simp only [hemp, if_false, Bool.false_eq_true]
      intro q hq t ht
      rcases mem_collSet hq with h' | h'
      · rw [h'] at ht
        exact hn (oldKey, bucket) hbmem t (List.mem_of_mem_filter ht)
      · exact hn q h' t ht
  have hARitems : ∀ q ∈ AR, ∀ t ∈ q.2, ∃ q' ∈ c, t ∈ q'.2 := by
    rw [hAR]
    by_cases hemp : b2.isEmpty
    · simp only [hemp, if_true]
      intro q hq t ht
      exact ⟨q, mem_collDelete hq, ht⟩
    · simp only [hemp, if_false, Bool.false_eq_true]
      intro q hq t ht
      rcases mem_collSet hq with h' | h'
      · rw [h'] at ht
        exact ⟨(oldKey, bucket), hbmem, List.mem_of_mem_filter ht⟩
      · exact ⟨q, h', ht⟩
  have hARold : collGet AR oldKey = (if b2.isEmpty then none else some b2) := by
    rw [hAR]
    by_cases hemp : b2.isEmpty
    · simp only [hemp, if_true]
      exact collGet_collDelete_self c oldKey
    · simp only [hemp, if_false, Bool.false_eq_true]
      exact collGet_collSet_self c oldKey b2
  have hARother : ∀ k, ¬ k = oldKey → collGet AR k = collGet c k := by
    intro k hkne
    rw [hAR]
    by_cases hemp : b2.isEmpty
    · simp only [hemp, if_true]
      exact collGet_collDelete_ne c oldKey k hkne
    · simp only [hemp, if_false, Bool.false_eq_true]
      exact collGet_collSet_ne c oldKey k b2 hkne
  have hgetold : collGet c oldKey = some bucket := by
    simpa using collGet_of_mem hk hbmem
  have hc'get_new : collGet (collSet AR u.dateKey (γ ++ [u])) u.dateKey =
      some (γ ++ [u]) := collGet_collSet_self AR u.dateKey (γ ++ [u])
  have hc'mem_new : (u.dateKey, γ ++ [u]) ∈ collSet AR u.dateKey (γ ++ [u]) :=
    mem_of_collGet hc'get_new
  have L3 : hasId (collSet AR u.dateKey (γ ++ [u])) i = true :=
    (hasId_iff _ _).mpr ⟨(u.dateKey, γ ++ [u]), hc'mem_new, u, by simp, huid'⟩
  have L1 : ∀ j, hasId (collSet AR u.dateKey (γ ++ [u])) j = true →
      j = i ∨ hasId c j = true := by
    intro j hj
    obtain ⟨q, hq, t, ht, hid⟩ := (hasId_iff _ _).mp hj
    rcases mem_collSet hq with h' | h'
    · rw [h'] at ht
      rcases List.mem_append.mp ht with h2 | h2
      · rw [hγ] at h2
        cases hg : collGet AR u.dateKey with
        | none =>
            rw [hg] at h2
            simp at h2
        | some b =>
            rw [hg] at h2
            simp only [Option.getD_some] at h2
            obtain ⟨q', hq', ht'⟩ := hARitems (u.dateKey, b) (mem_of_collGet hg) t h2
            exact Or.inr ((hasId_iff c j).mpr ⟨q', hq', t, ht', hid⟩)
      · have hteq : t = u := by simpa using h2
        left
        rw [← hid, hteq, huid']
    · obtain ⟨q', hq', ht'⟩ := hARitems q h' t ht
      exact Or.inr ((hasId_iff c j).mpr ⟨q', hq', t, ht', hid⟩)
  have L2 : ∀ j, ¬ j = i → hasId c j = true →
      hasId (collSet AR u.dateKey (γ ++ [u])) j = true := by
    intro j hji hj
    obtain ⟨q, hq, t, ht, hid⟩ := (hasId_iff c j).mp hj
    have hqget : collGet c q.1 = some q.2 := collGet_of_mem hk hq
    have htni : (!(t.id == i)) = true := by simp [hid, hji]
    by_cases hq1 : q.1 = u.dateKey
    · have htγ : t ∈ γ := by
        rw [hγ]
        by_cases hq2 : u.dateKey = oldKey
        · rw [hq2, hARold]
          have hqb : q.2 = bucket := by
            have h3 := hqget
            rw [hq1, hq2, hgetold] at h3
            exact (Option.some.inj h3).symm
          have htb : t ∈ bucket := by
            rw [← hqb]
            exact ht
          have htb2 : t ∈ b2 := by
            rw [hb2]
            exact List.mem_filter.mpr ⟨htb, htni⟩
          have hne2 : ¬ b2.isEmpty = true := by
            intro hemp
            rw [List.isEmpty_iff] at hemp
            rw [hemp] at htb2
            simp at htb2
          rw [if_neg hne2]
          simpa using htb2
        · rw [hARother u.dateKey hq2, ← hq1, hqget]
          simpa using ht
      exact (hasId_iff _ _).mpr ⟨(u.dateKey, γ ++ [u]), hc'mem_new, t,
        List.mem_append.mpr (Or.inl htγ), hid⟩
    · by_cases hq2 : q.1 = oldKey
      · have hqb : q.2 = bucket := by
          have h3 := hqget
          rw [hq2, hgetold] at h3
          exact (Option.some.inj h3).symm
        have htb : t ∈ bucket := by
          rw [← hqb]
          exact ht
        have htb2 : t ∈ b2 := by
          rw [hb2]
          exact List.mem_filter.mpr ⟨htb, htni⟩
        have hne2 : ¬ b2.isEmpty = true := by
          intro hemp
          rw [List.isEmpty_iff] at hemp
          rw [hemp] at htb2
          simp at htb2
        have hold_ne_new : ¬ oldKey = u.dateKey := fun he => hq1 (by rw [hq2, he])
        have hgc' : collGet (collSet AR u.dateKey (γ ++ [u])) oldKey = some b2 := by
          rw [collGet_collSet_ne AR u.dateKey oldKey _ hold_ne_new, hARold,
            if_neg hne2]
        exact (hasId_iff _ _).mpr ⟨(oldKey, b2), mem_of_collGet hgc', t, htb2, hid⟩
      · have hgc' : collGet (collSet AR u.dateKey (γ ++ [u])) q.1 = some q.2 := by
          rw [collGet_collSet_ne AR u.dateKey q.1 _ hq1, hARother q.1 hq2, hqget]
        exact (hasId_iff _ _).mpr ⟨(q.1, q.2), mem_of_collGet hgc', t, ht, hid⟩
  refine ⟨collSet AR u.dateKey (γ ++ [u]), ?_, ?_, ?_, ?_⟩
  · unfold updateTodoInCollection
    rw [hf]
    dsimp only
    rw [hex]
    dsimp only
    rw [hu]
  · apply keysNodup_collSet
    rw [hAR]
    by_cases hemp : b2.isEmpty
    · simp only [hemp, if_true]
      exact keysNodup_collDelete _ hk
    · simp only [hemp, if_false, Bool.false_eq_true]
      exact keysNodup_collSet _ _ hk
  · intro q hq t ht
    rcases mem_collSet hq with h' | h'
    · rw [h'] at ht
      rcases List.mem_append.mp ht with h2 | h2
      · rw [hγ] at h2
        cases hg : collGet AR u.dateKey with
        | none =>
            rw [hg] at h2
            simp at h2
        | some b =>
            rw [hg] at h2
            simp only [Option.getD_some] at h2
            exact hnAR (u.dateKey, b) (mem_of_collGet hg) t h2
      · have hteq : t = u := by simpa using h2
        rw [hteq, huid', ← hexid]
        exact hine
    · exact hnAR q h' t ht
  · intro j
    by_cases hj : j = i
    · subst hj
      rw [h]
      exact L3
    · cases hcj : hasId c j
      · cases hc'j : hasId (collSet AR u.dateKey (γ ++ [u])) j
        · rfl
        · rcases L1 j hc'j with h' | h'
          · exact absurd h' hj
          · rw [hcj] at h'
            exact Bool.noConfusion h'
      · exact L2 j hj hcj

theorem bulk_notFound (now : String) (p : TodoPatch) (hclean : PatchClean p) :
    ∀ (pre : List String) (m : String) (post : List String) (c : Collection),
      KeysNodup c → IdsNonempty c →
      (∀ i ∈ pre, hasId c i = true) → hasId c m = false →
      bulkUpdateCore now p c (pre ++ m :: post) = .error (.notFound m) := by
  intro pre
  induction pre with
  | nil =>
      intro m post c _ _ _ hm
      have hnf := updColl_notFound now p hm
      simp [bulkUpdateCore, hnf]
  | cons i pre' ih =>
      intro m post c hk hn hpre hm
      obtain ⟨c', hc', hk', hn', hsame⟩ :=
        updColl_step now hk hn hclean (hpre i (List.mem_cons_self _ _))
      have hstep : bulkUpdateCore now p c ((i :: pre') ++ m :: post) =
          bulkUpdateCore now p c' (pre' ++ m :: post) := by
        simp [bulkUpdateCore, hc']
      rw [hstep]
      refine ih m post c' hk' hn' ?_ ?_
      · intro x hx
        rw [hsame x]
        exact hpre x (List.mem_cons_of_mem _ hx)
      · rw [hsame m]
        exact hm

theorem bulk_ok (now : String) (p : TodoPatch) (hclean : PatchClean p) :
    ∀ (ids : List String) (c : Collection),
      KeysNodup c → IdsNonempty c → (∀ i ∈ ids, hasId c i = true) →
      ∃ c', bulkUpdateCore now p c ids = .ok c' := by
  intro ids
  induction ids with
  | nil =>
      intro c _ _ _
      exact ⟨c, rfl⟩
  | cons i rest ih =>
      intro c hk hn hall
      obtain ⟨c', hc', hk', hn', hsame⟩ :=
        updColl_step now hk hn hclean (hall i (List.mem_cons_self _ _))
      obtain ⟨c'', hc''⟩ := ih c' hk' hn'
        (fun x hx => by rw [hsame x]; exact hall x (List.mem_cons_of_mem _ hx))
      refine ⟨c'', ?_⟩
      simp [bulkUpdateCore, hc', hc'']

/-- C4 counterexample: with the patch `{title: " "}` (which never applies
cleanly) and the id list `["a", "missing"]` over a collection containing
only id "a", `bulkUpdate` fails with the title validation error raised
while processing "a" — not with a NotFound naming the absent id. -/
theorem C4_counterexample :
    bulkUpdateCore "t1" { title := some (.str " ") } exColl ["a", "missing"] =
      .error .titleInvalid ∧
    hasId exColl "missing" = false ∧
    (JSError.titleInvalid = JSError.notFound "missing" → False) := by
  refine ⟨by decide, by decide, by decide⟩

/-- C4 (amended): over a well-formed collection and a patch that applies
cleanly (present title non-empty after trimming, present date a `Date`),
`bulkUpdate` is all-or-nothing: when the id list contains a missing id it
fails with NotFound naming the first missing id and the facade leaves the
caller-visible collection completely untouched; when every id is present,
the sequential application of the per-id update succeeds. -/
theorem C4_bulk_update (outcome : PersistOutcome) (now : String) (p : TodoPatch)
    (st : LSState) (pre post : List String) (m : String)
    (hclean : PatchClean p) (hk : KeysNodup st.storedValue)
    (hn : IdsNonempty st.storedValue)
    (hpre : ∀ i ∈ pre, hasId st.storedValue i = true)
    (hm : hasId st.storedValue m = false) :
    bulkUpdateTodosF outcome now st (pre ++ m :: post) p =
      (st, .error (.wrapped "Failed to bulk update todos" (.notFound m))) ∧
    (∀ ids, (∀ i ∈ ids, hasId st.storedValue i = true) →
      ∃ c', bulkUpdateCore now p st.storedValue ids = .ok c') := by
  constructor
  · have hcore := bulk_notFound now p hclean pre m post st.storedValue hk hn hpre hm
    simp [bulkUpdateTodosF, hcore]
  · intro ids hall
    exact bulk_ok now p hclean ids st.storedValue hk hn hall

/-- C4 amended-claim witness: example scenario 6 — bulk-updating
`["a", "missing", "b"]` with a completion patch raises NotFound for
"missing" and the visible collection (holding "a" and "b") is unchanged. -/
theorem C4_bulk_update_witness :
    bulkUpdateTodosF .ok "t1"
      { storedValue := [("2024-01-05", [exA, exB])],
        status := { loading := false, error := none, lastUpdated := none } }
      ["a", "missing", "b"] { completed := some (.bool true) } =
      ({ storedValue := [("2024-01-05", [exA, exB])],
         status := { loading := false, error := none, lastUpdated := none } },
       .error (.wrapped "Failed to bulk update todos" (.notFound "missing"))) := by
  have h := (C4_bulk_update .ok "t1" { completed := some (.bool true) }
    { storedValue := [("2024-01-05", [exA, exB])],
      status := { loading := false, error := none, lastUpdated := none } }
    ["a"] ["b"] "missing"
    ⟨trivial, trivial⟩ (by decide) (by decide) (by decide) (by decide)).1
  exact h
